import Mathlib

/-!
Shallow embedding of the `videoconverter` repository (file `video_converter.py`)
in Lean 4, together with theorems settling the frozen claims about its
specification.  The script converts video files to several output formats by
probing media properties, deriving bounded encode parameters, building
transcoder command lines, and managing a temp/backup/final file protocol,
individually or in batch over a directory tree.

The embedding follows the source closely:

* Python string helpers (`split`, `replace`, `in`, `float()`, `int()`,
  `os.path.basename/dirname/join`) are modelled as executable functions on
  character lists; Python `float` values are idealised as rationals and
  `float()` parsing is modelled for plain decimal notation (optional sign,
  digits, at most one decimal point; exponent and inf/nan forms are not
  modelled, as the probing tool never emits them).
* `MediaInfo` accessors are modelled over the parsed info dictionary
  (an association list), returning `Except Unit (Option Int)`: `.ok none`
  is the Python `None` return, `.error ()` a raised parse exception.
* The conversion pipeline (`VideoConverter.convert_video`) is modelled as a
  state transformer over an abstract filesystem state; external processes
  are represented by a `Cmd` datatype with an oracle deciding process
  success, and the mediainfo probe invocation is tracked separately since
  the source spawns it outside the dry run gate.
-/

namespace VideoConv

/-- Boolean prefix test on character lists. -/
def isPrefixL : List Char → List Char → Bool
  | [], _ => true
  | _ :: _, [] => false
  | a :: as, b :: bs => a = b && isPrefixL as bs

/-- Fuel-driven substring containment on character lists, modelling the
Python `sub in s` test (for a non-empty `sub`). -/
def containsL (fuel : ℕ) (sub l : List Char) : Bool :=
  match fuel with
  | 0 => false
  | f + 1 =>
    if isPrefixL sub l then true
    else
      match l with
      | [] => false
      | _ :: cs => containsL f sub cs

/-- Fuel-driven removal of every occurrence of `sub` (left to right, non
overlapping), modelling Python `s.replace(sub, "")` for non-empty `sub`. -/
def removeAllL (fuel : ℕ) (sub l : List Char) : List Char :=
  match fuel with
  | 0 => l
  | f + 1 =>
    match l with
    | [] => []
    | c :: cs =>
      if isPrefixL sub (c :: cs) then removeAllL f sub ((c :: cs).drop sub.length)
      else c :: removeAllL f sub cs

/-- Fuel-driven replacement of the first occurrence of `pat` by `rep`,
modelling Python `s.replace(pat, rep, 1)`. -/
def replaceFirstL (fuel : ℕ) (pat rep l : List Char) : List Char :=
  match fuel with
  | 0 => l
  | f + 1 =>
    if isPrefixL pat l then rep ++ l.drop pat.length
    else
      match l with
      | [] => []
      | c :: cs => c :: replaceFirstL f pat rep cs

/-- Split a character list at every occurrence of the separator character,
modelling Python `s.split(sep)` for a one-character separator. -/
def splitChar (sep : Char) : List Char → List (List Char)
  | [] => [[]]
  | c :: cs =>
    match splitChar sep cs with
    | t :: ts => if c = sep then [] :: t :: ts else (c :: t) :: ts
    | [] => [[c]]

/-- Python `sub in s` on strings. -/
def pyContains (s sub : String) : Bool :=
  containsL (s.data.length + 1) sub.data s.data

/-- Python `s.replace(sub, "")` on strings. -/
def pyRemoveAll (s sub : String) : String :=
  String.mk (removeAllL (s.data.length + 1) sub.data s.data)

/-- Python `s.replace(pat, rep, 1)` on strings. -/
def pyReplaceFirst (s pat rep : String) : String :=
  String.mk (replaceFirstL (s.data.length + 1) pat.data rep.data s.data)

/-- Python `s.split(sep)` on strings for a one-character separator. -/
def pySplit (s : String) (sep : Char) : List (List Char) :=
  splitChar sep s.data

/-- Test whether `s` starts with `t`. -/
def strStartsWith (s t : String) : Bool :=
  isPrefixL t.data s.data

/-- Test whether `s` ends with `t`. -/
def strEndsWith (s t : String) : Bool :=
  isPrefixL t.data.reverse s.data.reverse

/-- Model of `os.path.basename`: the part of the path after the last slash. -/
def basename (p : String) : String :=
  String.mk (p.data.reverse.takeWhile (· ≠ '/')).reverse

/-- Model of `os.path.dirname` (posix): everything before the last slash,
with trailing slashes stripped unless the head is all slashes. -/
def dirname (p : String) : String :=
  let l := p.data
  let base := l.reverse.takeWhile (· ≠ '/')
  if base.length = l.length then ""
  else
    let head := l.take (l.length - base.length)
    if head.all (· = '/') then String.mk head
    else String.mk (head.reverse.dropWhile (· = '/')).reverse

/-- Model of `os.path.join` (posix) for two components. -/
def pjoin (a b : String) : String :=
  if strStartsWith b "/" then b
  else if a = "" || strEndsWith a "/" then a ++ b
  else a ++ "/" ++ b

/-- Numeric value of a list of decimal digit characters. -/
def digitsToNat (l : List Char) : ℕ :=
  l.foldl (fun a c => a * 10 + (c.toNat - 48)) 0

/-- Test that every character in the list is a decimal digit. -/
def allDigits (l : List Char) : Bool :=
  l.all (·.isDigit)

/-- Model of Python `float()` on plain decimal strings: optional sign,
digits with at most one decimal point and at least one digit. Returns the
exact rational value; malformed input yields `none` (a raised ValueError in
the source).  The value is assembled with a single `mkRat` so it evaluates
by kernel reduction. -/
def pyFloatChars? (l : List Char) : Option ℚ :=
  let signed : Bool × List Char :=
    match l with
    | '-' :: r => (true, r)
    | '+' :: r => (false, r)
    | r => (false, r)
  let core : Option (ℤ × ℕ) :=
    match splitChar '.' signed.2 with
    | [ip] =>
      if allDigits ip && !ip.isEmpty then some ((digitsToNat ip : ℤ), 1) else none
    | [ip, fp] =>
      if allDigits ip && allDigits fp && (!ip.isEmpty || !fp.isEmpty) then
        some (((digitsToNat ip * 10 ^ fp.length + digitsToNat fp : ℕ) : ℤ), 10 ^ fp.length)
      else none
    | _ => none
  match core with
  | some (n, d) => some (mkRat (if signed.1 then -n else n) d)
  | none => none

/-- Model of Python `float()` on strings. -/
def pyFloat? (s : String) : Option ℚ :=
  pyFloatChars? s.data

/-- Model of Python `int()` applied to a float value: truncation toward
zero of the idealised rational. -/
def pyInt (q : ℚ) : ℤ :=
  if q < 0 then -((((-q).num.natAbs / (-q).den : ℕ) : ℤ)) else ((q.num.natAbs / q.den : ℕ) : ℤ)

/-! Configuration constants of the source script. -/

/-- Path of the transcoding binary. -/
def FFMPEG : String := "/usr/local/bin/ffmpeg"

/-- Maximum canvas width (`VIDEO_WIDTH = 640.0` in the source). -/
def VIDEO_WIDTH : ℚ := 640

/-- Maximum canvas height (`VIDEO_HEIGHT = 480.0` in the source). -/
def VIDEO_HEIGHT : ℚ := 480

/-- Maximum video bitrate in kbps. -/
def MAX_VIDEO_BITRATE_KBPS : ℤ := 1024

/-- Maximum audio bitrate in kbps. -/
def MAX_AUDIO_BITRATE_KBPS : ℤ := 56

/-- Maximum audio sampling rate in Hz. -/
def MAX_AUDIO_SAMPLING : ℤ := 22050

/-!  MediaInfo accessors.  The parsed `self.info` dictionary is modelled as
an association list from normalized keys to raw lower-cased values. -/

/-- Model of `MediaInfo._get_stripped_value`: look the key up and strip the
unit label and spaces.  A falsy (empty) stored value is returned unchanged,
matching the Python truthiness guard. -/
def get_stripped_value (info : List (String × String)) (label value : String) :
    Option String :=
  match info.lookup value with
  | none => none
  | some s => if s = "" then some "" else some (pyRemoveAll (pyRemoveAll s label) " ")

/-- Model of `MediaInfo._get_bitrate_in_kbps`: `.ok none` models the Python
`None` return, `.error ()` a raised parse exception.  Note the `mbps` branch
truncates the parsed float to an integer first and multiplies by 1024
afterwards (`int(float(value)) * 1024` in the source). -/
def get_bitrate_in_kbps (info : List (String × String)) (label : String) :
    Except Unit (Option ℤ) :=
  match info.lookup label with
  | none => .ok none
  | some raw =>
    if raw = "" then .ok none
    else if pyContains raw "kbps" then
      match get_stripped_value info "kbps" label with
      | some v =>
        match pyFloat? v with
        | some q => .ok (some (pyInt q))
        | none => .error ()
      | none => .error ()
    else if pyContains raw "mbps" then
      match get_stripped_value info "mbps" label with
      | some v =>
        match pyFloat? v with
        | some q => .ok (some (pyInt q * 1024))
        | none => .error ()
      | none => .error ()
    else .ok none

/-- Model of `MediaInfo.get_audio_sampling`: the `khz` branch truncates the
parsed float and multiplies by 1024 (`int(float(sampling)) * 1024`), the
`hz` branch parses directly. -/
def get_audio_sampling (info : List (String × String)) : Except Unit (Option ℤ) :=
  let label := "audio_sampling_rate"
  match info.lookup label with
  | none => .ok none
  | some raw =>
    if raw = "" then .ok none
    else if pyContains raw "khz" then
      match get_stripped_value info "khz" label with
      | some v =>
        match pyFloat? v with
        | some q => .ok (some (pyInt q * 1024))
        | none => .error ()
      | none => .error ()
    else if pyContains raw "hz" then
      match get_stripped_value info "hz" label with
      | some v =>
        match pyFloat? v with
        | some q => .ok (some (pyInt q))
        | none => .error ()
      | none => .error ()
    else .ok none

/-- Model of `MediaInfo.get_video_bitrate`. -/
def get_video_bitrate (info : List (String × String)) : Except Unit (Option ℤ) :=
  get_bitrate_in_kbps info "video_bit_rate"

/-- Model of `MediaInfo.get_audio_bitrate`. -/
def get_audio_bitrate (info : List (String × String)) : Except Unit (Option ℤ) :=
  get_bitrate_in_kbps info "audio_bit_rate"

/-! Encode parameter derivation (`VideoConverter._get_convert_commands`,
lines 263 to 292 of the source). -/

/-- Model of the aspect-preserving resize computation (source lines 263 to
275): pass the dimensions through unchanged when neither exceeds the
canvas, otherwise apply the width correction and then the height
correction, both relative to the aspect ratio of the original. -/
def resizeDims (w h : ℚ) : ℚ × ℚ :=
  if w > VIDEO_WIDTH ∨ h > VIDEO_HEIGHT then
    let aspect := w / h
    let rw1 := w
    let rh1 := h
    let rw2 := if rw1 > VIDEO_WIDTH then VIDEO_WIDTH else rw1
    let rh2 := if rw1 > VIDEO_WIDTH then rw2 / aspect else rh1
    let rh3 := if rh2 > VIDEO_HEIGHT then VIDEO_HEIGHT else rh2
    let rw3 := if rh2 > VIDEO_HEIGHT then rh3 * aspect else rw2
    (rw3, rh3)
  else (w, h)

/-- Model of the three bitrate and sampling clamps (source lines 282 to
292): `if not value or value > maximum: value = maximum`.  The Python
truthiness test makes both an absent value and a probed value of zero fall
back to the maximum. -/
def clampParam (v : Option ℤ) (maxVal : ℤ) : ℤ :=
  match v with
  | none => maxVal
  | some x => if x = 0 ∨ x > maxVal then maxVal else x

/-- Model of the padscale filter expression (source lines 277 to 280). -/
def padscaleOf (rw rh : ℚ) : String :=
  "scale=" ++ toString (pyInt rw) ++ ":" ++ toString (pyInt rh) ++
    ",pad=" ++ toString (pyInt VIDEO_WIDTH) ++ ":" ++ toString (pyInt VIDEO_HEIGHT) ++
    ":(ow-iw)/2:(oh-ih)/2:black"

/-- Model of `VideoConverter._get_convert_command` (source lines 159 to
251): the literal transcoder argument vector for each of the four known
format tags; an unknown tag falls off the end of the if chain and yields
the Python `None`. -/
def get_convert_command (filetype original output : String) (frame_rate : ℤ)
    (video_bitrate audio_bitrate audio_sampling : ℤ) (verbosity padscale : String) :
    Option (List String) :=
  if filetype = "flv" then
    some [FFMPEG, "-i", original, "-vcodec", "flv", "-f", "flv",
      "-r", toString frame_rate, "-b:v", toString video_bitrate ++ "k",
      "-g", "160", "-cmp", "dct", "-subcmp", "dct", "-mbd", "2", "-trellis", "1",
      "-ac", "1", "-ar", "22050", "-ab", toString audio_bitrate ++ "k",
      "-v", verbosity, "-vf", padscale, output]
  else if filetype = "mp4" then
    some [FFMPEG, "-i", original, "-vcodec", "libx264", "-acodec", "libfdk_aac",
      "-preset", "slow", "-profile:v", "baseline", "-strict", "experimental",
      "-f", "mp4", "-r", toString frame_rate, "-b:v", toString video_bitrate ++ "k",
      "-g", "160", "-cmp", "dct", "-subcmp", "dct", "-mbd", "2", "-trellis", "1",
      "-level", "30", "-ac", "2", "-ar", "22050", "-ab", toString audio_bitrate ++ "k",
      "-maxrate", "10000000", "-bufsize", "10000000", "-threads", "0",
      "-pix_fmt", "yuv420p", "-v", verbosity, "-vf", padscale, output]
  else if filetype = "webm" then
    some [FFMPEG, "-i", original, "-vcodec", "libvpx", "-acodec", "libvorbis",
      "-f", "webm", "-r", toString frame_rate, "-b:v", toString video_bitrate ++ "k",
      "-g", "160", "-cmp", "dct", "-subcmp", "dct", "-mbd", "2", "-trellis", "1",
      "-ac", "1", "-ar", toString audio_sampling, "-ab", toString audio_bitrate ++ "k",
      "-v", verbosity, "-vf", padscale, output]
  else if filetype = "ogv" then
    some [FFMPEG, "-i", original, "-vcodec", "libtheora", "-acodec", "libvorbis",
      "-f", "ogg", "-r", toString frame_rate, "-b:v", toString video_bitrate ++ "k",
      "-g", "160", "-cmp", "dct", "-subcmp", "dct", "-mbd", "2", "-trellis", "1",
      "-ac", "1", "-ar", toString audio_sampling, "-ab", toString audio_bitrate ++ "k",
      "-v", verbosity, "-vf", padscale, output]
  else none

/-! File conversion pipeline (`VideoConverter.convert_video`) and batch
traversal (`BatchConverter.convert_all_videos`).  External commands run via
`VideoConverter._command` are modelled by the `Cmd` datatype; the abstract
filesystem keeps a set of created directories and a partial map from file
paths to opaque content markers.  A success oracle decides whether each
spawned process exits cleanly (`subprocess.check_call` raises otherwise). -/

/-- One external command passed to `VideoConverter._command`. -/
inductive Cmd where
  | mkdirp (dir : String)
  | rmf (path : String)
  | mv (src dst : String)
  | ffmpeg (args : List String)
deriving DecidableEq

/-- One line written through `logging.info`, plus the per-file error record
written by `logging.exception`. -/
inductive LogEntry where
  | cmd (c : Cmd)
  | skipExisting (path : String)
  | errorConverting (file : String)
  | starting (index total : ℕ) (file : String)
  | finished (index total : ℕ)
deriving DecidableEq

/-- Abstract world state threaded through the pipeline: created
directories, the file map, the commands actually executed, the media files
probed by spawning the mediainfo process, and the log. -/
structure St where
  dirs : List String
  fs : String → Option ℕ
  executed : List Cmd
  probes : List String
  log : List LogEntry

/-- Existence test on the abstract file map (`os.path.exists` on a file). -/
def fsExists (fs : String → Option ℕ) (p : String) : Bool :=
  (fs p).isSome

/-- Effect of a successfully executed command on directories and files.
The transcoder writes its output path, which is the last entry of its
argument vector; its content is the opaque marker supplied by the caller. -/
def cmdFsEffect (c : Cmd) (content : ℕ) (dirs : List String)
    (fs : String → Option ℕ) : List String × (String → Option ℕ) :=
  match c with
  | .mkdirp d => (dirs ++ [d], fs)
  | .rmf p => (dirs, fun q => if q = p then none else fs q)
  | .mv a b => (dirs, fun q => if q = b then fs a else if q = a then none else fs q)
  | .ffmpeg args => (dirs, fun q => if q = args.getLastD "" then some content else fs q)

/-- Model of `VideoConverter._command` (source lines 155 to 157): under dry
run nothing is spawned; otherwise the process is spawned and, when the
oracle reports a non-zero exit, `subprocess.check_call` raises, reported
here as a `false` flag.  A failing process is modelled as having no
filesystem effect. -/
def runCommand (dryRun : Bool) (oracle : Cmd → Bool) (c : Cmd) (content : ℕ)
    (s : St) : St × Bool :=
  if dryRun then (s, true)
  else
    let s := { s with executed := s.executed ++ [c] }
    if oracle c then
      let df := cmdFsEffect c content s.dirs s.fs
      ({ s with dirs := df.1, fs := df.2 }, true)
    else (s, false)

/-- Append one log line (`logging.info` happens before the command runs and
regardless of dry run). -/
def logAdd (e : LogEntry) (s : St) : St :=
  { s with log := s.log ++ [e] }

/-- Configuration fields of a `VideoConverter` instance. -/
structure Config where
  parentDir : String
  videoFile : String
  outputDir : String
  prefixOpt : Option String
  dryRun : Bool
  existsFlag : Bool
  backup : Bool
  verbosity : String
  formats : List String

/-- Model of the `VideoConverter.__init__` defaulting: the parent directory
is the dirname of the video file and a falsy output directory falls back to
it. -/
def mkVideoConverter (video_file : String) (output_dir : Option String)
    (prefixOpt : Option String) (dry_run existsFlag backup : Bool)
    (verbosity : String) (formats : List String) : Config :=
  let parent := dirname video_file
  { parentDir := parent
    videoFile := video_file
    outputDir := match output_dir with
      | some d => if d = "" then parent else d
      | none => parent
    prefixOpt := prefixOpt
    dryRun := dry_run
    existsFlag := existsFlag
    backup := backup
    verbosity := verbosity
    formats := formats }

/-- Probed media properties consumed by `_get_convert_commands`; the
optional fields model accessor `None` returns. -/
structure ProbeVals where
  width : ℤ
  height : ℤ
  fps : ℤ
  video_bitrate : Option ℤ
  audio_bitrate : Option ℤ
  audio_sampling : Option ℤ

/-- Base name component used for output naming: `vparts[0]` of the
basename split at dots. -/
def vcBase (cfg : Config) : String :=
  String.mk ((splitChar '.' (basename cfg.videoFile).data).headD [])

/-- Output name with the optional (truthy) filename marker prepended,
modelling `self.prefix + vparts[0] if self.prefix else vparts[0]`. -/
def vcName (cfg : Config) : String :=
  match cfg.prefixOpt with
  | some p => if p = "" then vcBase cfg else p ++ vcBase cfg
  | none => vcBase cfg

/-- Model of `VideoConverter._get_convert_commands` after the probe step
(source lines 263 to 302): derive resize, padscale and clamped rates, then
build one command per requested format against the temp output path. -/
def get_convert_commands (cfg : Config) (pv : ProbeVals) (name : String) :
    List (String × Option (List String)) :=
  let rd := resizeDims (pv.width : ℚ) (pv.height : ℚ)
  let padscale := padscaleOf rd.1 rd.2
  let video_bitrate := clampParam pv.video_bitrate MAX_VIDEO_BITRATE_KBPS
  let audio_bitrate := clampParam pv.audio_bitrate MAX_AUDIO_BITRATE_KBPS
  let audio_sampling := clampParam pv.audio_sampling MAX_AUDIO_SAMPLING
  cfg.formats.map fun filetype =>
    (filetype,
      get_convert_command filetype cfg.videoFile
        (pjoin cfg.parentDir (name ++ ".tmp." ++ filetype)) pv.fps
        video_bitrate audio_bitrate audio_sampling cfg.verbosity padscale)

/-- Model of one iteration of the per-format loop in
`VideoConverter.convert_video` (source lines 318 to 355): skip when the
final file exists and the exists flag is set, otherwise transcode to the
temp path, rotate the single backup generation when enabled, and move the
temp file into place.  The `Bool` is `false` when an exception escaped the
iteration (a failing process, or the attempt to join a `None` command). -/
def processFormat (cfg : Config) (oracle : Cmd → Bool) (contents : String → ℕ)
    (name : String) (entry : String × Option (List String)) (s : St) : St × Bool :=
  let extension := entry.1
  let extname := name ++ "." ++ extension
  let tmpname := name ++ ".tmp." ++ extension
  let tmpfile := pjoin cfg.parentDir tmpname
  let final_path := pjoin cfg.outputDir extname
  let final_bak := pjoin cfg.outputDir (extname ++ ".bak")
  if cfg.existsFlag && fsExists s.fs final_path then
    (logAdd (.skipExisting final_path) s, true)
  else
    match entry.2 with
    | none => (s, false)
    | some convertcmd =>
      let s := logAdd (.cmd (.ffmpeg convertcmd)) s
      let r1 := runCommand cfg.dryRun oracle (.ffmpeg convertcmd) (contents extension) s
      if !r1.2 then r1
      else
        let s := r1.1
        let r2 :=
          if fsExists s.fs final_path && cfg.backup then
            let r3 :=
              if fsExists s.fs final_bak then
                runCommand cfg.dryRun oracle (.rmf final_bak) 0
                  (logAdd (.cmd (.rmf final_bak)) s)
              else (s, true)
            if !r3.2 then r3
            else
              runCommand cfg.dryRun oracle (.mv final_path final_bak) 0
                (logAdd (.cmd (.mv final_path final_bak)) r3.1)
          else (s, true)
        if !r2.2 then r2
        else
          runCommand cfg.dryRun oracle (.mv tmpfile final_path) 0
            (logAdd (.cmd (.mv tmpfile final_path)) r2.1)

/-- Fold of `processFormat` over the command list, aborting on the first
escaped exception as the Python for loop does. -/
def processFormats (cfg : Config) (oracle : Cmd → Bool) (contents : String → ℕ)
    (name : String) : List (String × Option (List String)) → St → St × Bool
  | [], s => (s, true)
  | e :: rest, s =>
    let r := processFormat cfg oracle contents name e s
    if r.2 then processFormats cfg oracle contents name rest r.1 else r

/-- Body of the `try` block of `VideoConverter.convert_video` (source lines
308 to 355): create the output directory when missing, spawn the mediainfo
probe (not gated by dry run), then process every requested format. -/
def convertVideoBody (cfg : Config) (probe : Except Unit ProbeVals)
    (oracle : Cmd → Bool) (contents : String → ℕ) (s : St) : St × Bool :=
  let r1 :=
    if !(s.dirs.contains cfg.outputDir) then
      runCommand cfg.dryRun oracle (.mkdirp cfg.outputDir) 0
        (logAdd (.cmd (.mkdirp cfg.outputDir)) s)
    else (s, true)
  if !r1.2 then r1
  else
    let s := { r1.1 with probes := r1.1.probes ++ [cfg.videoFile] }
    match probe with
    | .error _ => (s, false)
    | .ok pv =>
      let name := vcName cfg
      processFormats cfg oracle contents name (get_convert_commands cfg pv name) s

/-- Model of `VideoConverter.convert_video` (source lines 304 to 358): the
whole per-file sequence runs only when the basename splits into exactly two
dot-separated parts, and every exception raised inside is caught at this
boundary and recorded with `logging.exception`. -/
def convert_video (cfg : Config) (probe : Except Unit ProbeVals)
    (oracle : Cmd → Bool) (contents : String → ℕ) (s : St) : St :=
  if (splitChar '.' (basename cfg.videoFile).data).length = 2 then
    let r := convertVideoBody cfg probe oracle contents s
    if r.2 then r.1 else logAdd (.errorConverting cfg.videoFile) r.1
  else s

/-- Configuration fields of a `BatchConverter` instance. -/
structure BatchCfg where
  inputDir : String
  outputDir : Option String
  prefixOpt : Option String
  dryRun : Bool
  existsFlag : Bool
  backup : Bool
  verbosity : String
  formats : List String

/-- Batch discovery (source lines 382 to 394): keep every walked file whose
name splits into exactly two dot-separated parts, join it with its parent
directory, and sort for a consistent conversion sequence.  The walk result
(triples of parent, folders, files, at every depth) is supplied by the
environment. -/
def discoverVideos (walk : List (String × List String × List String)) : List String :=
  let videos := walk.flatMap fun f =>
    f.2.2.filterMap fun filename =>
      if (splitChar '.' filename.data).length = 2 then some (pjoin f.1 filename)
      else none
  videos.mergeSort (fun a b => a ≤ b)

/-- Loop body of `BatchConverter.convert_all_videos` (source lines 396 to
412): mirror the output directory by substituting the input root once,
build the per-file converter and run it, logging progress around it. -/
def batchLoop (bc : BatchCfg) (probes : String → Except Unit ProbeVals)
    (oracle : Cmd → Bool) (contents : String → String → ℕ) (total : ℕ) :
    List String → ℕ → St → St
  | [], _, s => s
  | video :: rest, index, s =>
    let final_dir : Option String :=
      match bc.outputDir with
      | none => none
      | some od => some (pyReplaceFirst (dirname video) bc.inputDir od)
    let cfg := mkVideoConverter video final_dir bc.prefixOpt bc.dryRun
      bc.existsFlag bc.backup bc.verbosity bc.formats
    let s := logAdd (.starting (index + 1) total video) s
    let s := convert_video cfg (probes video) oracle (contents video) s
    let s := logAdd (.finished (index + 1) total) s
    batchLoop bc probes oracle contents total rest (index + 1) s

/-- Model of `BatchConverter.convert_all_videos`: discover, then convert in
order.  Console progress printing is not modelled (it carries the same
information as the logged progress lines). -/
def convert_all_videos (bc : BatchCfg)
    (walk : List (String × List String × List String))
    (probes : String → Except Unit ProbeVals) (oracle : Cmd → Bool)
    (contents : String → String → ℕ) (s : St) : St :=
  let videos := discoverVideos walk
  batchLoop bc probes oracle contents videos.length videos 0 s

/-- Files named in `starting` progress lines, in order. -/
def startedFiles (l : List LogEntry) : List String :=
  l.filterMap fun e =>
    match e with
    | .starting _ _ f => some f
    | _ => none

/-! Claim-side reformulations, for refinement comparisons. -/

/-- Resize computation exactly as the specification words it: unchanged
dimensions when both fit the canvas, otherwise a width pass capping at the
canvas width with height recomputed from the aspect ratio, followed by a
height pass capping at the canvas height with width recomputed from the
aspect ratio. -/
def resizeDimsClaim (w h : ℚ) : ℚ × ℚ :=
  if w ≤ VIDEO_WIDTH ∧ h ≤ VIDEO_HEIGHT then (w, h)
  else
    let aspect := w / h
    let step1 : ℚ × ℚ :=
      if w > VIDEO_WIDTH then (VIDEO_WIDTH, VIDEO_WIDTH / aspect) else (w, h)
    if step1.2 > VIDEO_HEIGHT then (VIDEO_HEIGHT * aspect, VIDEO_HEIGHT) else step1

/-! Theorems for the claims. -/

/-- C1: for every probed width w > 0 and height h > 0, the derived resize
dimensions follow the two-step fit described by the specification: if
w ≤ 640 and h ≤ 480 they equal (w, h) unchanged (no upscaling); otherwise
the aspect ratio w/h is computed, the width is capped at 640 with height
recomputed as 640/aspect, and if the height still exceeds 480 it is capped
at 480 with the width recomputed as 480*aspect. -/
theorem c1_resize_follows_two_step_fit (w h : ℚ) (hw : 0 < w) (hh : 0 < h) :
    resizeDims w h = resizeDimsClaim w h := by
  rw [resizeDims, resizeDimsClaim]
  dsimp only
  split_ifs with h1 h2 h3 h4 h5 h6 h7 <;>
    first
      | rfl
      | (exfalso; push_neg at *; try rcases h1 with h1 | h1 <;> try linarith) <;> linarith

/-- Witness for C1 at the concrete probe 1280 x 720. -/
theorem c1_resize_follows_two_step_fit_witness :
    resizeDims 1280 720 = resizeDimsClaim 1280 720 :=
  c1_resize_follows_two_step_fit 1280 720 (by norm_num) (by norm_num)

/-- C10: the two-step width-then-height correction always lands inside the
canvas: for every probed width w > 0 and height h > 0 the resize width is
at most 640 and the resize height at most 480. -/
theorem c10_resize_bounded (w h : ℚ) (hw : 0 < w) (hh : 0 < h) :
    (resizeDims w h).1 ≤ VIDEO_WIDTH ∧ (resizeDims w h).2 ≤ VIDEO_HEIGHT := by
  have hwh : (0 : ℚ) < w / h := div_pos hw hh
  rw [resizeDims]
  dsimp only
  unfold VIDEO_WIDTH VIDEO_HEIGHT at *
  split_ifs with h1 h2 h3 h4
  · -- width capped, height still too large: width recomputed as 480 * aspect
    refine ⟨le_of_lt ?_, le_refl _⟩
    exact (lt_div_iff hwh).mp h3
  · -- width capped, height fits
    exact ⟨le_refl _, le_of_not_lt h3⟩
  · -- width fits, height capped
    constructor
    · show (480 : ℚ) * (w / h) ≤ 640
      rw [← mul_div_assoc, div_le_iff hh]
      push_neg at h2
      nlinarith
    · exact le_refl _
  · -- width fits and recomputed height fits: the outer guard forces a
    -- contradiction
    exfalso
    push_neg at h2 h4
    rcases h1 with h1 | h1 <;> linarith
  · -- neither dimension exceeded the canvas
    push_neg at h1
    exact h1

/-- Witness for C10 at the concrete probe 1280 x 720. -/
theorem c10_resize_bounded_witness :
    (resizeDims 1280 720).1 ≤ VIDEO_WIDTH ∧ (resizeDims 1280 720).2 ≤ VIDEO_HEIGHT :=
  c10_resize_bounded 1280 720 (by norm_num) (by norm_num)

/-- Counterexample for C2: a probed bitrate of 0 kbps (a real output of the
accessor, parsed from the raw value "0kbps") is strictly below the 1024
kbps maximum, yet the clamp raises it to the maximum, because the Python
truthiness test `not video_bitrate` also fires on zero.  This refutes the
clause that clamping never raises a value already below the maximum. -/
theorem c2_counterexample :
    get_bitrate_in_kbps [("video_bit_rate", "0kbps")] "video_bit_rate" = .ok (some 0) ∧
    (0 : ℤ) < MAX_VIDEO_BITRATE_KBPS ∧
    clampParam (some 0) MAX_VIDEO_BITRATE_KBPS = 1024 := by
  refine ⟨rfl, by decide, by decide⟩

/-- C2 as amended: the derived encode parameters never exceed 1024 kbps
video bitrate, 56 kbps audio bitrate and 22050 Hz audio sampling; an absent
probed value is replaced by the corresponding maximum; and clamping never
raises a nonzero probed value that is at or below the maximum (a probed
value of zero is falsy in the source and is treated like an absent one,
being raised to the maximum). -/
theorem c2_amended_clamp_bounds :
    (∀ v : Option ℤ, clampParam v MAX_VIDEO_BITRATE_KBPS ≤ MAX_VIDEO_BITRATE_KBPS) ∧
    (∀ v : Option ℤ, clampParam v MAX_AUDIO_BITRATE_KBPS ≤ MAX_AUDIO_BITRATE_KBPS) ∧
    (∀ v : Option ℤ, clampParam v MAX_AUDIO_SAMPLING ≤ MAX_AUDIO_SAMPLING) ∧
    (clampParam none MAX_VIDEO_BITRATE_KBPS = MAX_VIDEO_BITRATE_KBPS ∧
      clampParam none MAX_AUDIO_BITRATE_KBPS = MAX_AUDIO_BITRATE_KBPS ∧
      clampParam none MAX_AUDIO_SAMPLING = MAX_AUDIO_SAMPLING) ∧
    (∀ x maxVal : ℤ, 0 < x → x ≤ maxVal → clampParam (some x) maxVal = x) := by
  have hle : ∀ (v : Option ℤ) (m : ℤ), clampParam v m ≤ m := by
    intro v m
    match v with
    | none => exact le_refl m
    | some x =>
      simp only [clampParam]
      split_ifs with hx
      · exact le_refl m
      · push_neg at hx
        exact hx.2
  refine ⟨fun v => hle v _, fun v => hle v _, fun v => hle v _, ⟨rfl, rfl, rfl⟩, ?_⟩
  intro x maxVal hx hxm
  simp only [clampParam]
  rw [if_neg]
  push_neg
  exact ⟨by omega, hxm⟩

/-- Witness for C2: a probed audio bitrate of 40 kbps, below the 56 kbps
maximum, is passed through unchanged. -/
theorem c2_amended_clamp_bounds_witness :
    clampParam (some 40) 56 = 40 :=
  c2_amended_clamp_bounds.2.2.2.2 40 56 (by decide) (by decide)

/-- Counterexample for C4: the source computes `int(float(value)) * 1024`,
truncating before multiplying, so "2.5mbps" yields 2048 (not 2560 as the
claim states) and "44.1khz" yields 45056 (not 45158). -/
theorem c4_counterexample :
    get_bitrate_in_kbps [("video_bit_rate", "2.5mbps")] "video_bit_rate" =
      .ok (some 2048) ∧
    (2048 : ℤ) ≠ 2560 ∧
    get_audio_sampling [("audio_sampling_rate", "44.1khz")] = .ok (some 45056) ∧
    (45056 : ℤ) ≠ 45158 :=
  ⟨rfl, by decide, rfl, by decide⟩

/-- C4 as amended: for every raw probed bitrate string containing "mbps"
(and not "kbps") and every raw sampling string containing "khz", the
accessor strips the unit and spaces, parses the remainder as a float,
truncates that float to an integer, and then multiplies the integer by
1024 (so "2.5mbps" yields 2048 and "44.1khz" yields 45056). -/
theorem c4_amended_truncate_before_multiply :
    (∀ (info : List (String × String)) (label raw : String) (q : ℚ),
      info.lookup label = some raw → raw ≠ "" →
      pyContains raw "kbps" = false → pyContains raw "mbps" = true →
      pyFloat? (pyRemoveAll (pyRemoveAll raw "mbps") " ") = some q →
      get_bitrate_in_kbps info label = .ok (some (pyInt q * 1024))) ∧
    (∀ (info : List (String × String)) (raw : String) (q : ℚ),
      info.lookup "audio_sampling_rate" = some raw → raw ≠ "" →
      pyContains raw "khz" = true →
      pyFloat? (pyRemoveAll (pyRemoveAll raw "khz") " ") = some q →
      get_audio_sampling info = .ok (some (pyInt q * 1024))) := by
  constructor
  · intro info label raw q hlook hne hkb hmb hparse
    simp only [get_bitrate_in_kbps, get_stripped_value, hlook, hne, hkb, hmb, hparse,
      if_neg hne, Bool.false_eq_true, if_false, if_true]
  · intro info raw q hlook hne hkh hparse
    simp only [get_audio_sampling, get_stripped_value, hlook, hne, hkh, hparse,
      if_neg hne, Bool.false_eq_true, if_false, if_true]

/-- Witness for C4 at the concrete raw values "2.5mbps" and "44.1khz". -/
theorem c4_amended_truncate_before_multiply_witness :
    get_bitrate_in_kbps [("video_bit_rate", "2.5mbps")] "video_bit_rate" =
      .ok (some (pyInt (mkRat 25 10) * 1024)) ∧
    get_audio_sampling [("audio_sampling_rate", "44.1khz")] =
      .ok (some (pyInt (mkRat 441 10) * 1024)) :=
  ⟨c4_amended_truncate_before_multiply.1 [("video_bit_rate", "2.5mbps")]
      "video_bit_rate" "2.5mbps" (mkRat 25 10) rfl (by decide) (by decide) (by decide)
      (by decide),
    c4_amended_truncate_before_multiply.2 [("audio_sampling_rate", "44.1khz")]
      "44.1khz" (mkRat 441 10) rfl (by decide) (by decide) (by decide)⟩

/-- Adjacent argument pair occurring in a command vector: the command
carries the flag `a` immediately followed by the value `b`. -/
def hasArgPair (cmd : List String) (a b : String) : Prop :=
  ∃ s t, s ++ [a, b] ++ t = cmd

/-- A member of an argument pair is a member of the command vector. -/
theorem hasArgPair_mem {cmd : List String} {a b : String}
    (h : hasArgPair cmd a b) : b ∈ cmd := by
  obtain ⟨s, t, rfl⟩ := h
  simp

/-- An argument pair at the head of the command vector. -/
theorem hasArgPair_here (a b : String) (t : List String) :
    hasArgPair (a :: b :: t) a b :=
  ⟨[], t, rfl⟩

/-- An argument pair is preserved by prepending an argument. -/
theorem hasArgPair_cons {cmd : List String} {a b : String} (x : String)
    (h : hasArgPair cmd a b) : hasArgPair (x :: cmd) a b := by
  obtain ⟨s, t, rfl⟩ := h
  exact ⟨x :: s, t, rfl⟩

/-- Transcoder command built for the webm format with a derived audio
sampling rate of 11025 Hz, used to refute C3. -/
def webmCexCmd : List String :=
  (get_convert_command "webm" "in.mov" "out.tmp.webm" 30 1024 56 11025 "verbose"
    "pads").getD []

/-- Counterexample for C3: the webm command forces mono (one audio
channel), yet its sample-rate argument is the derived sampling rate (here
11025), not the fixed 22050 the claim pairs with mono formats. -/
theorem c3_counterexample :
    hasArgPair webmCexCmd "-ac" "1" ∧
    hasArgPair webmCexCmd "-ar" "11025" ∧
    ¬ hasArgPair webmCexCmd "-ar" "22050" := by
  refine ⟨?_, ?_, ?_⟩
  · show hasArgPair
      [FFMPEG, "-i", "in.mov", "-vcodec", "libvpx", "-acodec", "libvorbis",
        "-f", "webm", "-r", "30", "-b:v", "1024k", "-g", "160", "-cmp", "dct",
        "-subcmp", "dct", "-mbd", "2", "-trellis", "1", "-ac", "1", "-ar",
        "11025", "-ab", "56k", "-v", "verbose", "-vf", "pads", "out.tmp.webm"]
      "-ac" "1"
    repeat first
      | exact hasArgPair_here _ _ _
      | apply hasArgPair_cons
  · show hasArgPair
      [FFMPEG, "-i", "in.mov", "-vcodec", "libvpx", "-acodec", "libvorbis",
        "-f", "webm", "-r", "30", "-b:v", "1024k", "-g", "160", "-cmp", "dct",
        "-subcmp", "dct", "-mbd", "2", "-trellis", "1", "-ac", "1", "-ar",
        "11025", "-ab", "56k", "-v", "verbose", "-vf", "pads", "out.tmp.webm"]
      "-ar" "11025"
    repeat first
      | exact hasArgPair_here _ _ _
      | apply hasArgPair_cons
  · intro h
    have hm := hasArgPair_mem h
    revert hm
    decide

/-- C3 as amended: the flv command forces mono with the fixed 22050 Hz
sample-rate argument; the mp4 command uses stereo but also the fixed 22050
Hz argument; the webm and ogv commands force mono and pass through the
derived (clamped) audio sampling rate. -/
theorem c3_amended_audio_pairing (original output verbosity padscale : String)
    (frame_rate video_bitrate audio_bitrate audio_sampling : ℤ) :
    (∃ cmd, get_convert_command "flv" original output frame_rate video_bitrate
        audio_bitrate audio_sampling verbosity padscale = some cmd ∧
      hasArgPair cmd "-ac" "1" ∧ hasArgPair cmd "-ar" "22050") ∧
    (∃ cmd, get_convert_command "mp4" original output frame_rate video_bitrate
        audio_bitrate audio_sampling verbosity padscale = some cmd ∧
      hasArgPair cmd "-ac" "2" ∧ hasArgPair cmd "-ar" "22050") ∧
    (∃ cmd, get_convert_command "webm" original output frame_rate video_bitrate
        audio_bitrate audio_sampling verbosity padscale = some cmd ∧
      hasArgPair cmd "-ac" "1" ∧ hasArgPair cmd "-ar" (toString audio_sampling)) ∧
    (∃ cmd, get_convert_command "ogv" original output frame_rate video_bitrate
        audio_bitrate audio_sampling verbosity padscale = some cmd ∧
      hasArgPair cmd "-ac" "1" ∧ hasArgPair cmd "-ar" (toString audio_sampling)) := by
  refine ⟨⟨_, rfl, ?_, ?_⟩, ⟨_, rfl, ?_, ?_⟩, ⟨_, rfl, ?_, ?_⟩, ⟨_, rfl, ?_, ?_⟩⟩ <;>
    repeat first
      | exact hasArgPair_here _ _ _
      | apply hasArgPair_cons

/-- C5: for a file conversion with backup enabled, a prior final file in
place, the exists flag off and every spawned process succeeding, one pass
of the per-format protocol deletes any old backup, renames the prior final
file to the backup path, and moves the fresh temp file to the final path:
afterwards the backup holds the previous final content, the final path
holds the new transcode, the temp file is gone, and no exception escaped. -/
theorem c5_backup_rotation (cfg : Config) (oracle : Cmd → Bool)
    (contents : String → ℕ) (name ext : String) (cmd : List String) (s : St)
    (oldC : ℕ)
    (hdry : cfg.dryRun = false) (hex : cfg.existsFlag = false)
    (hbk : cfg.backup = true) (horacle : ∀ c, oracle c = true)
    (hout : cmd.getLastD "" = pjoin cfg.parentDir (name ++ ".tmp." ++ ext))
    (hfin : s.fs (pjoin cfg.outputDir (name ++ "." ++ ext)) = some oldC)
    (h1 : pjoin cfg.parentDir (name ++ ".tmp." ++ ext) ≠
      pjoin cfg.outputDir (name ++ "." ++ ext))
    (h2 : pjoin cfg.parentDir (name ++ ".tmp." ++ ext) ≠
      pjoin cfg.outputDir (name ++ "." ++ ext ++ ".bak"))
    (h3 : pjoin cfg.outputDir (name ++ "." ++ ext) ≠
      pjoin cfg.outputDir (name ++ "." ++ ext ++ ".bak")) :
    ((processFormat cfg oracle contents name (ext, some cmd) s).1.fs
        (pjoin cfg.outputDir (name ++ "." ++ ext ++ ".bak")) = some oldC) ∧
    ((processFormat cfg oracle contents name (ext, some cmd) s).1.fs
        (pjoin cfg.outputDir (name ++ "." ++ ext)) = some (contents ext)) ∧
    ((processFormat cfg oracle contents name (ext, some cmd) s).1.fs
        (pjoin cfg.parentDir (name ++ ".tmp." ++ ext)) = none) ∧
    (processFormat cfg oracle contents name (ext, some cmd) s).2 = true := by
  have h1' := Ne.symm h1
  have h2' := Ne.symm h2
  have h3' := Ne.symm h3
  by_cases hb : (s.fs (pjoin cfg.outputDir (name ++ "." ++ ext ++ ".bak"))).isSome = true
  · simp only [processFormat, runCommand, cmdFsEffect, logAdd, fsExists, hdry, hex,
      horacle, hbk, hout, hfin, hb, h1, h2, h3, h1', h2', h3', Bool.false_and,
      Bool.and_true, Bool.not_true, Bool.not_false, if_false, if_true,
      Option.isSome_some, Bool.true_and, Bool.false_eq_true, reduceIte]
    exact ⟨trivial, trivial, trivial, trivial⟩
  · rw [Bool.not_eq_true] at hb
    simp only [processFormat, runCommand, cmdFsEffect, logAdd, fsExists, hdry, hex,
      horacle, hbk, hout, hfin, hb, h1, h2, h3, h1', h2', h3', Bool.false_and,
      Bool.and_true, Bool.not_true, Bool.not_false, if_false, if_true,
      Option.isSome_some, Bool.true_and, Bool.false_eq_true, reduceIte]
    exact ⟨trivial, trivial, trivial, trivial⟩

/-- Concrete configuration for the C5 witness. -/
def c5CfgW : Config :=
  { parentDir := "d", videoFile := "d/v.mov", outputDir := "d", prefixOpt := none,
    dryRun := false, existsFlag := false, backup := true, verbosity := "verbose",
    formats := ["flv"] }

/-- Concrete starting state for the C5 witness: a prior final file and a
prior backup file both exist. -/
def c5StW : St :=
  { dirs := ["d"],
    fs := fun p => if p = "d/v.flv" then some 1 else if p = "d/v.flv.bak" then some 0 else none,
    executed := [], probes := [], log := [] }

/-- Witness for C5 at a concrete single-format conversion. -/
theorem c5_backup_rotation_witness :
    ((processFormat c5CfgW (fun _ => true) (fun _ => 2) "v"
        ("flv", some ["x", "d/v.tmp.flv"]) c5StW).1.fs
        (pjoin "d" ("v" ++ "." ++ "flv" ++ ".bak")) = some 1) ∧
    ((processFormat c5CfgW (fun _ => true) (fun _ => 2) "v"
        ("flv", some ["x", "d/v.tmp.flv"]) c5StW).1.fs
        (pjoin "d" ("v" ++ "." ++ "flv")) = some 2) ∧
    ((processFormat c5CfgW (fun _ => true) (fun _ => 2) "v"
        ("flv", some ["x", "d/v.tmp.flv"]) c5StW).1.fs
        (pjoin "d" ("v" ++ ".tmp." ++ "flv")) = none) ∧
    (processFormat c5CfgW (fun _ => true) (fun _ => 2) "v"
        ("flv", some ["x", "d/v.tmp.flv"]) c5StW).2 = true :=
  c5_backup_rotation c5CfgW (fun _ => true) (fun _ => 2) "v" "flv"
    ["x", "d/v.tmp.flv"] c5StW 1 rfl rfl rfl (fun _ => rfl) (by decide) (by decide)
    (by decide) (by decide) (by decide)

/-- A skipped format only logs the skip: the per-format step leaves the
whole state unchanged apart from the log line. -/
theorem processFormat_skip (cfg : Config) (oracle : Cmd → Bool)
    (contents : String → ℕ) (name : String) (e : String × Option (List String))
    (s : St) (hex : cfg.existsFlag = true)
    (hfs : fsExists s.fs (pjoin cfg.outputDir (name ++ "." ++ e.1)) = true) :
    processFormat cfg oracle contents name e s =
      (logAdd (.skipExisting (pjoin cfg.outputDir (name ++ "." ++ e.1))) s, true) := by
  simp only [processFormat, hex, hfs, Bool.and_self, if_true]

/-- Formats list version of `processFormat_skip`: when the exists flag is
set and every final file already exists, the fold leaves files,
directories, executed commands and probes untouched and reports success. -/
theorem processFormats_skip (cfg : Config) (oracle : Cmd → Bool)
    (contents : String → ℕ) (name : String)
    (entries : List (String × Option (List String))) (s : St)
    (hex : cfg.existsFlag = true)
    (hall : ∀ e ∈ entries,
      fsExists s.fs (pjoin cfg.outputDir (name ++ "." ++ e.1)) = true) :
    (processFormats cfg oracle contents name entries s).1.fs = s.fs ∧
    (processFormats cfg oracle contents name entries s).1.dirs = s.dirs ∧
    (processFormats cfg oracle contents name entries s).1.executed = s.executed ∧
    (processFormats cfg oracle contents name entries s).1.probes = s.probes ∧
    (processFormats cfg oracle contents name entries s).2 = true := by
  induction entries generalizing s with
  | nil => exact ⟨rfl, rfl, rfl, rfl, rfl⟩
  | cons e rest ih =>
    have he := hall e (List.mem_cons_self e rest)
    have hrest : ∀ e2 ∈ rest,
        fsExists (logAdd (.skipExisting (pjoin cfg.outputDir (name ++ "." ++ e.1))) s).fs
          (pjoin cfg.outputDir (name ++ "." ++ e2.1)) = true := by
      intro e2 he2
      exact hall e2 (List.mem_cons_of_mem e he2)
    simp only [processFormats, processFormat_skip cfg oracle contents name e s hex he,
      if_true]
    exact ih _ hrest

/-- The first components of the built command list are exactly the
requested formats. -/
theorem get_convert_commands_fst (cfg : Config) (pv : ProbeVals) (name : String) :
    ∀ e ∈ get_convert_commands cfg pv name, e.1 ∈ cfg.formats := by
  intro e he
  simp only [get_convert_commands, List.mem_map] at he
  obtain ⟨ft, hft, rfl⟩ := he
  exact hft

/-- C6: when the skip-if-exists flag is set, the output directory already
exists and the final file of every requested format is already in place, the
whole per-file conversion changes no file, creates no directory and
executes no command; in particular a second run over the outputs of a
completed first run leaves the destination unchanged. -/
theorem c6_skip_existing_idempotent (cfg : Config) (probe : Except Unit ProbeVals)
    (oracle : Cmd → Bool) (contents : String → ℕ) (s : St)
    (hex : cfg.existsFlag = true)
    (hdir : s.dirs.contains cfg.outputDir = true)
    (hall : ∀ ft ∈ cfg.formats,
      fsExists s.fs (pjoin cfg.outputDir (vcName cfg ++ "." ++ ft)) = true) :
    (convert_video cfg probe oracle contents s).fs = s.fs ∧
    (convert_video cfg probe oracle contents s).dirs = s.dirs ∧
    (convert_video cfg probe oracle contents s).executed = s.executed := by
  rw [convert_video]
  split_ifs with hv
  · have hbody :
        (convertVideoBody cfg probe oracle contents s).1.fs = s.fs ∧
        (convertVideoBody cfg probe oracle contents s).1.dirs = s.dirs ∧
        (convertVideoBody cfg probe oracle contents s).1.executed = s.executed := by
      rw [convertVideoBody]
      simp only [hdir, Bool.not_true, Bool.false_eq_true, if_false]
      match probe with
      | .error _ => exact ⟨rfl, rfl, rfl⟩
      | .ok pv =>
        have hall2 : ∀ e ∈ get_convert_commands cfg pv (vcName cfg),
            fsExists s.fs (pjoin cfg.outputDir (vcName cfg ++ "." ++ e.1)) = true :=
          fun e he => hall e.1 (get_convert_commands_fst cfg pv (vcName cfg) e he)
        obtain ⟨hf, hd, he, _hp, _hok⟩ :=
          processFormats_skip cfg oracle contents (vcName cfg)
            (get_convert_commands cfg pv (vcName cfg))
            { s with probes := s.probes ++ [cfg.videoFile] } hex hall2
        exact ⟨hf, hd, he⟩
    obtain ⟨hf, hd, he⟩ := hbody
    dsimp only
    split_ifs with hr
    · exact ⟨hf, hd, he⟩
    · exact ⟨hf, hd, he⟩
  · exact ⟨rfl, rfl, rfl⟩

/-- Concrete state for the C6 witness: both final files exist. -/
def c6StW : St :=
  { dirs := ["o"],
    fs := fun p => if p = "o/v.flv" then some 1 else if p = "o/v.mp4" then some 1 else none,
    executed := [], probes := [], log := [] }

/-- Concrete configuration for the C6 witness. -/
def c6CfgW : Config :=
  { parentDir := "d", videoFile := "d/v.mov", outputDir := "o", prefixOpt := none,
    dryRun := false, existsFlag := true, backup := false, verbosity := "verbose",
    formats := ["flv", "mp4"] }

/-- Witness for C6 at a concrete two-format second run. -/
theorem c6_skip_existing_idempotent_witness :
    (convert_video c6CfgW (.error ()) (fun _ => true) (fun _ => 2) c6StW).fs = c6StW.fs ∧
    (convert_video c6CfgW (.error ()) (fun _ => true) (fun _ => 2) c6StW).dirs = c6StW.dirs ∧
    (convert_video c6CfgW (.error ()) (fun _ => true) (fun _ => 2) c6StW).executed =
      c6StW.executed :=
  c6_skip_existing_idempotent c6CfgW (.error ()) (fun _ => true) (fun _ => 2) c6StW
    rfl (by decide) (by decide)

/-- Under dry run a command is only logged, never spawned. -/
theorem runCommand_dry (oracle : Cmd → Bool) (c : Cmd) (content : ℕ) (s : St) :
    runCommand true oracle c content s = (s, true) :=
  rfl

/-- Under dry run the per-format step can only extend the log: files,
directories, executed commands and probes are untouched. -/
theorem processFormat_dry (cfg : Config) (oracle : Cmd → Bool)
    (contents : String → ℕ) (name : String) (e : String × Option (List String))
    (s : St) (hdry : cfg.dryRun = true) :
    (processFormat cfg oracle contents name e s).1.fs = s.fs ∧
    (processFormat cfg oracle contents name e s).1.dirs = s.dirs ∧
    (processFormat cfg oracle contents name e s).1.executed = s.executed ∧
    (processFormat cfg oracle contents name e s).1.probes = s.probes ∧
    ∃ t, (processFormat cfg oracle contents name e s).1.log = s.log ++ t := by
  rw [processFormat]
  split_ifs with hskip
  · exact ⟨rfl, rfl, rfl, rfl, ⟨_, rfl⟩⟩
  · match e, hskip with
    | (ft, none), _ => exact ⟨rfl, rfl, rfl, rfl, ⟨[], by simp⟩⟩
    | (ft, some cmd), _ =>
      simp only [hdry, runCommand_dry, logAdd, Bool.not_true, Bool.false_eq_true,
        if_false]
      split_ifs <;>
        first
          | (refine ⟨rfl, rfl, rfl, rfl, ?_⟩
             simp only [List.append_assoc]
             exact ⟨_, rfl⟩)
          | simp_all

/-- Under dry run, with the exists flag off and an actual command to run,
the per-format step succeeds and records the intended transcode command
line in the log. -/
theorem processFormat_dry_logs (cfg : Config) (oracle : Cmd → Bool)
    (contents : String → ℕ) (name ft : String) (cmd : List String) (s : St)
    (hdry : cfg.dryRun = true) (hex : cfg.existsFlag = false) :
    (processFormat cfg oracle contents name (ft, some cmd) s).2 = true ∧
    LogEntry.cmd (.ffmpeg cmd) ∈
      (processFormat cfg oracle contents name (ft, some cmd) s).1.log := by
  rw [processFormat]
  simp only [hex, Bool.false_and, Bool.false_eq_true, if_false, hdry,
    runCommand_dry, logAdd]
  split_ifs <;> simp

/-- Fold version of the dry run lemmas: every format command is processed,
the non-log state is untouched and each intended command line is logged. -/
theorem processFormats_dry (cfg : Config) (oracle : Cmd → Bool)
    (contents : String → ℕ) (name : String)
    (entries : List (String × Option (List String))) (s : St)
    (hdry : cfg.dryRun = true) (hex : cfg.existsFlag = false)
    (hsome : ∀ e ∈ entries, e.2.isSome = true) :
    (processFormats cfg oracle contents name entries s).1.fs = s.fs ∧
    (processFormats cfg oracle contents name entries s).1.dirs = s.dirs ∧
    (processFormats cfg oracle contents name entries s).1.executed = s.executed ∧
    (processFormats cfg oracle contents name entries s).1.probes = s.probes ∧
    (processFormats cfg oracle contents name entries s).2 = true ∧
    (∃ t, (processFormats cfg oracle contents name entries s).1.log = s.log ++ t) ∧
    ∀ e ∈ entries, ∀ cmd, e.2 = some cmd →
      LogEntry.cmd (Cmd.ffmpeg cmd) ∈
        (processFormats cfg oracle contents name entries s).1.log := by
  induction entries generalizing s with
  | nil =>
    refine ⟨rfl, rfl, rfl, rfl, rfl, ⟨[], by simp [processFormats]⟩, ?_⟩
    intro e he
    exact absurd he (List.not_mem_nil e)
  | cons e rest ih =>
    obtain ⟨cmd0, hcmd0⟩ :=
      Option.isSome_iff_exists.mp (hsome e (List.mem_cons_self e rest))
    obtain ⟨ft0, hv0⟩ : ∃ ft0, e = (ft0, some cmd0) := ⟨e.1, by
      rw [← hcmd0]⟩
    subst hv0
    have hsome2 : ∀ e2 ∈ rest, e2.2.isSome = true :=
      fun e2 he2 => hsome e2 (List.mem_cons_of_mem _ he2)
    obtain ⟨hok1, hlog1⟩ :=
      processFormat_dry_logs cfg oracle contents name ft0 cmd0 s hdry hex
    obtain ⟨hf1, hd1, he1, hp1, t1, ht1⟩ :=
      processFormat_dry cfg oracle contents name (ft0, some cmd0) s hdry
    rw [processFormats, hok1]
    simp only [if_true]
    set s1 := (processFormat cfg oracle contents name (ft0, some cmd0) s).1 with hs1
    obtain ⟨hf2, hd2, he2, hp2, hok2, ⟨t2, ht2⟩, hmem2⟩ := ih s1 hsome2
    refine ⟨by rw [hf2, hf1], by rw [hd2, hd1], by rw [he2, he1],
      by rw [hp2, hp1], hok2, ⟨t1 ++ t2, by rw [ht2, ht1, List.append_assoc]⟩, ?_⟩
    intro e2 he2' cmd2 hcmd2
    rcases List.mem_cons.mp he2' with h | h
    · have : cmd2 = cmd0 := by
        rw [h] at hcmd2
        exact (Option.some_inj.mp hcmd2).symm
      subst this
      rw [ht2]
      exact List.mem_append_left _ hlog1
    · exact hmem2 e2 h cmd2 hcmd2

/-- C7 as amended: under dry run every command-running side effect of a
single-file conversion is suppressed and only logged: no `_command`
process is spawned, no file or directory is touched, and every intended
transcode command line appears in the log; however the mediainfo probe
process is still spawned, because the source constructs `MediaInfo`
outside the dry run gate. -/
theorem c7_amended_dry_run (cfg : Config) (pv : ProbeVals) (oracle : Cmd → Bool)
    (contents : String → ℕ) (s : St)
    (hdry : cfg.dryRun = true) (hex : cfg.existsFlag = false)
    (hvp : (splitChar '.' (basename cfg.videoFile).data).length = 2)
    (hfmt : ∀ e ∈ get_convert_commands cfg pv (vcName cfg), e.2.isSome = true) :
    (convert_video cfg (.ok pv) oracle contents s).fs = s.fs ∧
    (convert_video cfg (.ok pv) oracle contents s).dirs = s.dirs ∧
    (convert_video cfg (.ok pv) oracle contents s).executed = s.executed ∧
    (convert_video cfg (.ok pv) oracle contents s).probes =
      s.probes ++ [cfg.videoFile] ∧
    ∀ e ∈ get_convert_commands cfg pv (vcName cfg), ∀ cmd, e.2 = some cmd →
      LogEntry.cmd (Cmd.ffmpeg cmd) ∈ (convert_video cfg (.ok pv) oracle contents s).log := by
  rw [convert_video, if_pos hvp, convertVideoBody]
  have hr1 : ∀ s0 : St,
      (if !(s0.dirs.contains cfg.outputDir) then
        runCommand cfg.dryRun oracle (.mkdirp cfg.outputDir) 0
          (logAdd (.cmd (.mkdirp cfg.outputDir)) s0)
      else (s0, true)) =
        ((if !(s0.dirs.contains cfg.outputDir) then
            logAdd (.cmd (.mkdirp cfg.outputDir)) s0
          else s0), true) := by
    intro s0
    rw [hdry]
    split_ifs <;> rfl
  rw [hr1]
  simp only [Bool.not_true, Bool.false_eq_true, if_false]
  set s1 : St :=
    (if !(s.dirs.contains cfg.outputDir) then
      logAdd (.cmd (.mkdirp cfg.outputDir)) s
    else s) with hs1
  have hfs1 : s1.fs = s.fs ∧ s1.dirs = s.dirs ∧ s1.executed = s.executed ∧
      s1.probes = s.probes := by
    rw [hs1]
    split_ifs <;> exact ⟨rfl, rfl, rfl, rfl⟩
  set s2 : St := { s1 with probes := s1.probes ++ [cfg.videoFile] } with hs2
  obtain ⟨hf2, hd2, he2, hp2, hok2, _, hmem2⟩ :=
    processFormats_dry cfg oracle contents (vcName cfg)
      (get_convert_commands cfg pv (vcName cfg)) s2 hdry hex hfmt
  rw [hok2]
  simp only [if_true]
  exact ⟨by rw [hf2, hfs1.1], by rw [hd2, hfs1.2.1], by rw [he2, hfs1.2.2.1],
    by rw [hp2]; exact congrArg (· ++ [cfg.videoFile]) hfs1.2.2.2, hmem2⟩

/-- Concrete dry run configuration used to settle C7. -/
def c7CfgW : Config :=
  { parentDir := "d", videoFile := "d/v.mov", outputDir := "d", prefixOpt := none,
    dryRun := true, existsFlag := false, backup := false, verbosity := "verbose",
    formats := ["flv"] }

/-- Concrete probe result used to settle C7. -/
def c7PvW : ProbeVals :=
  { width := 640, height := 480, fps := 30, video_bitrate := none,
    audio_bitrate := none, audio_sampling := none }

/-- Concrete empty starting state used to settle C7. -/
def c7StW : St :=
  { dirs := [], fs := fun _ => none, executed := [], probes := [], log := [] }

/-- Counterexample for C7: even under dry run, a single-file conversion
spawns the mediainfo probe process (the `MediaInfo` constructor calls
`subprocess.Popen` outside the dry run gate), so the claim that no
external process is spawned, neither transcode nor any other, fails. -/
theorem c7_counterexample :
    c7CfgW.dryRun = true ∧ c7StW.probes = [] ∧
    (convert_video c7CfgW (.ok c7PvW) (fun _ => true) (fun _ => 0) c7StW).probes =
      ["d/v.mov"] :=
  ⟨rfl, rfl, rfl⟩

/-- Witness for C7 at the concrete dry run configuration. -/
theorem c7_amended_dry_run_witness :
    (convert_video c7CfgW (.ok c7PvW) (fun _ => true) (fun _ => 0) c7StW).fs = c7StW.fs ∧
    (convert_video c7CfgW (.ok c7PvW) (fun _ => true) (fun _ => 0) c7StW).dirs = c7StW.dirs ∧
    (convert_video c7CfgW (.ok c7PvW) (fun _ => true) (fun _ => 0) c7StW).executed =
      c7StW.executed ∧
    (convert_video c7CfgW (.ok c7PvW) (fun _ => true) (fun _ => 0) c7StW).probes =
      c7StW.probes ++ [c7CfgW.videoFile] ∧
    ∀ e ∈ get_convert_commands c7CfgW c7PvW (vcName c7CfgW), ∀ cmd, e.2 = some cmd →
      LogEntry.cmd (Cmd.ffmpeg cmd) ∈
        (convert_video c7CfgW (.ok c7PvW) (fun _ => true) (fun _ => 0) c7StW).log :=
  c7_amended_dry_run c7CfgW c7PvW (fun _ => true) (fun _ => 0) c7StW rfl rfl
    (by decide) (by decide)

/-- An executed command never touches the log. -/
theorem runCommand_log (dryRun : Bool) (oracle : Cmd → Bool) (c : Cmd)
    (content : ℕ) (s : St) : ((runCommand dryRun oracle c content s).1).log = s.log := by
  rw [runCommand]
  split_ifs <;> rfl

/-- Logging appends exactly one entry. -/
theorem logAdd_log (e : LogEntry) (s : St) : (logAdd e s).log = s.log ++ [e] :=
  rfl

/-- Distribution of the progress-line projection over appends. -/
theorem startedFiles_append (l1 l2 : List LogEntry) :
    startedFiles (l1 ++ l2) = startedFiles l1 ++ startedFiles l2 :=
  List.filterMap_append l1 l2 _

/-- The per-format step only appends non-progress entries to the log. -/
theorem processFormat_log_extend (cfg : Config) (oracle : Cmd → Bool)
    (contents : String → ℕ) (name : String) (e : String × Option (List String))
    (s : St) :
    ∃ t, (processFormat cfg oracle contents name e s).1.log = s.log ++ t ∧
      startedFiles t = [] := by
  rw [processFormat]
  split_ifs with hskip
  · exact ⟨_, rfl, rfl⟩
  · match e with
    | (ft, none) => exact ⟨[], by simp, rfl⟩
    | (ft, some cmd) =>
      dsimp only
      split_ifs <;>
        simp only [runCommand_log, logAdd_log, List.append_assoc] <;>
        exact ⟨_, rfl, rfl⟩

/-- The format fold only appends non-progress entries to the log. -/
theorem processFormats_log_extend (cfg : Config) (oracle : Cmd → Bool)
    (contents : String → ℕ) (name : String)
    (entries : List (String × Option (List String))) (s : St) :
    ∃ t, (processFormats cfg oracle contents name entries s).1.log = s.log ++ t ∧
      startedFiles t = [] := by
  induction entries generalizing s with
  | nil => exact ⟨[], by simp [processFormats], rfl⟩
  | cons e rest ih =>
    rw [processFormats]
    obtain ⟨t1, ht1, hs1⟩ := processFormat_log_extend cfg oracle contents name e s
    split_ifs with hok
    · obtain ⟨t2, ht2, hs2⟩ := ih (processFormat cfg oracle contents name e s).1
      exact ⟨t1 ++ t2, by rw [ht2, ht1, List.append_assoc],
        by rw [startedFiles_append, hs1, hs2, List.append_nil]⟩
    · exact ⟨t1, ht1, hs1⟩

/-- The body of a single-file conversion only appends non-progress entries
to the log. -/
theorem convertVideoBody_log_extend (cfg : Config) (probe : Except Unit ProbeVals)
    (oracle : Cmd → Bool) (contents : String → ℕ) (s : St) :
    ∃ t, (convertVideoBody cfg probe oracle contents s).1.log = s.log ++ t ∧
      startedFiles t = [] := by
  rw [convertVideoBody]
  by_cases hd : s.dirs.contains cfg.outputDir
  · simp only [hd, Bool.not_true, Bool.false_eq_true, if_false]
    cases probe with
    | error e => exact ⟨[], by simp, rfl⟩
    | ok pv =>
      obtain ⟨t, ht, hst⟩ := processFormats_log_extend cfg oracle contents (vcName cfg)
        (get_convert_commands cfg pv (vcName cfg))
        { s with probes := s.probes ++ [cfg.videoFile] }
      exact ⟨t, by simpa using ht, hst⟩
  · simp only [hd, Bool.not_false, if_true]
    set r1 := runCommand cfg.dryRun oracle (.mkdirp cfg.outputDir) 0
      (logAdd (.cmd (.mkdirp cfg.outputDir)) s) with hr1
    have hlog1 : r1.1.log = s.log ++ [.cmd (.mkdirp cfg.outputDir)] := by
      rw [hr1, runCommand_log, logAdd_log]
    split_ifs with hok
    · exact ⟨_, hlog1, rfl⟩
    · cases probe with
      | error e => exact ⟨_, hlog1, rfl⟩
      | ok pv =>
        obtain ⟨t, ht, hst⟩ := processFormats_log_extend cfg oracle contents (vcName cfg)
          (get_convert_commands cfg pv (vcName cfg))
          { r1.1 with probes := r1.1.probes ++ [cfg.videoFile] }
        refine ⟨.cmd (.mkdirp cfg.outputDir) :: t, ?_, hst⟩
        have : ({ r1.1 with probes := r1.1.probes ++ [cfg.videoFile] } : St).log =
            s.log ++ [.cmd (.mkdirp cfg.outputDir)] := hlog1
        rw [ht, this, List.append_assoc]
        rfl

/-- A single-file conversion never writes progress lines: the started-file
projection of its log is unchanged. -/
theorem convert_video_startedFiles (cfg : Config) (probe : Except Unit ProbeVals)
    (oracle : Cmd → Bool) (contents : String → ℕ) (s : St) :
    startedFiles (convert_video cfg probe oracle contents s).log =
      startedFiles s.log := by
  rw [convert_video]
  split_ifs with hv
  · obtain ⟨t, ht, hst⟩ := convertVideoBody_log_extend cfg probe oracle contents s
    dsimp only
    split_ifs with hok
    · rw [ht, startedFiles_append, hst, List.append_nil]
    · rw [logAdd_log, startedFiles_append, ht, startedFiles_append, hst]
      simp [startedFiles]
  · rfl

/-- The batch loop starts every remaining video exactly once, in order,
whatever each conversion does. -/
theorem batchLoop_startedFiles (bc : BatchCfg)
    (probes : String → Except Unit ProbeVals) (oracle : Cmd → Bool)
    (contents : String → String → ℕ) (total : ℕ) (vs : List String) (i : ℕ)
    (s : St) :
    startedFiles (batchLoop bc probes oracle contents total vs i s).log =
      startedFiles s.log ++ vs := by
  induction vs generalizing i s with
  | nil => simp [batchLoop]
  | cons v rest ih =>
    rw [batchLoop]
    rw [ih, logAdd_log, startedFiles_append, convert_video_startedFiles,
      logAdd_log, startedFiles_append]
    simp [startedFiles]

/-- C8: every exception in the conversion sequence of one file is caught at the
single-file boundary and logged, and the batch continues with the next
file: for every success oracle and probe outcome (covering probe parse
errors, failing external processes and failing filesystem commands) the
batch starts every discovered file in order, and whenever the body of a
single-file conversion fails, the error is recorded in the log while the
call still returns normally. -/
theorem c8_errors_contained_batch_continues :
    (∀ (bc : BatchCfg) (walk : List (String × List String × List String))
      (probes : String → Except Unit ProbeVals) (oracle : Cmd → Bool)
      (contents : String → String → ℕ) (s : St),
      startedFiles (convert_all_videos bc walk probes oracle contents s).log =
        startedFiles s.log ++ discoverVideos walk) ∧
    (∀ (cfg : Config) (probe : Except Unit ProbeVals) (oracle : Cmd → Bool)
      (contents : String → ℕ) (s : St),
      (splitChar '.' (basename cfg.videoFile).data).length = 2 →
      (convertVideoBody cfg probe oracle contents s).2 = false →
      LogEntry.errorConverting cfg.videoFile ∈
        (convert_video cfg probe oracle contents s).log) := by
  constructor
  · intro bc walk probes oracle contents s
    rw [convert_all_videos]
    exact batchLoop_startedFiles bc probes oracle contents _ _ 0 s
  · intro cfg probe oracle contents s hvp hfail
    rw [convert_video, if_pos hvp]
    dsimp only
    rw [hfail]
    simp [logAdd]

/-- Concrete configuration for the C8 witness: the probe raises. -/
def c8CfgW : Config :=
  { parentDir := "d", videoFile := "d/v.mov", outputDir := "d", prefixOpt := none,
    dryRun := false, existsFlag := false, backup := false, verbosity := "verbose",
    formats := ["flv"] }

/-- Concrete state for the C8 witness. -/
def c8StW : St :=
  { dirs := ["d"], fs := fun _ => none, executed := [], probes := [], log := [] }

/-- Witness for C8 at a concrete failing probe. -/
theorem c8_errors_contained_batch_continues_witness :
    LogEntry.errorConverting c8CfgW.videoFile ∈
      (convert_video c8CfgW (.error ()) (fun _ => true) (fun _ => 0) c8StW).log :=
  c8_errors_contained_batch_continues.2 c8CfgW (.error ()) (fun _ => true)
    (fun _ => 0) c8StW (by decide) (by decide)

/-- Length of a character split: one more than the separator count. -/
theorem splitChar_length (sep : Char) (l : List Char) :
    (splitChar sep l).length = l.count sep + 1 := by
  induction l with
  | nil => rfl
  | cons c cs ih =>
    rw [splitChar]
    cases hs : splitChar sep cs with
    | nil =>
      rw [hs] at ih
      simp at ih
    | cons t ts =>
      rw [hs] at ih
      by_cases hc : c = sep
      · subst hc
        simp only [if_pos rfl, List.length_cons, List.count_cons, beq_self_eq_true,
          if_true]
        simp only [List.length_cons] at ih
        omega
      · have hbe : (c == sep) = false := beq_eq_false_iff_ne.mpr hc
        simp only [if_neg hc, List.length_cons, List.count_cons, hbe,
          Bool.false_eq_true, if_false]
        simp only [List.length_cons] at ih
        omega

/-- C9: batch discovery selects exactly the walked files, at any depth,
whose name contains exactly one extension separator (zero or two-plus dots
exclude a file), and the discovered absolute paths are returned in
lexicographic order. -/
theorem c9_discovery_filter_and_sort
    (walk : List (String × List String × List String)) :
    List.Sorted (· ≤ ·) (discoverVideos walk) ∧
    (discoverVideos walk).Perm
      (walk.flatMap fun f => f.2.2.filterMap fun nm =>
        if nm.data.count '.' = 1 then some (pjoin f.1 nm) else none) := by
  have heq : (walk.flatMap fun f => f.2.2.filterMap fun nm =>
      if (splitChar '.' nm.data).length = 2 then some (pjoin f.1 nm) else none) =
      walk.flatMap fun f => f.2.2.filterMap fun nm =>
        if nm.data.count '.' = 1 then some (pjoin f.1 nm) else none := by
    have hfun : ∀ (f : String × List String × List String),
        (f.2.2.filterMap fun nm =>
          if (splitChar '.' nm.data).length = 2 then some (pjoin f.1 nm) else none) =
        f.2.2.filterMap fun nm =>
          if nm.data.count '.' = 1 then some (pjoin f.1 nm) else none := by
      intro f
      apply List.filterMap_congr
      intro nm _
      rw [splitChar_length]
      exact if_congr (by omega) rfl rfl
    simp only [hfun]
  constructor
  · rw [discoverVideos]
    have hs := @List.sorted_mergeSort String (fun a b : String => a ≤ b)
      (fun a b c hab hbc =>
        decide_eq_true (le_trans (of_decide_eq_true hab) (of_decide_eq_true hbc)))
      (fun a b => by
        rw [Bool.or_eq_true]
        rcases le_total a b with h | h
        · exact Or.inl (decide_eq_true h)
        · exact Or.inr (decide_eq_true h))
      (walk.flatMap fun f => f.2.2.filterMap fun nm =>
        if (splitChar '.' nm.data).length = 2 then some (pjoin f.1 nm) else none)
    exact hs.imp fun h => of_decide_eq_true h
  · rw [discoverVideos]
    refine (List.mergeSort_perm _ _).trans ?_
    rw [heq]

end VideoConv
